import Mathlib

/-!
Verification of the generational handle/slot storage core of the
`nightmare` repository (`crates/nightmare/src/genvec.rs`).

The Rust code is shallowly embedded: `Vec` becomes `List`, in-place
mutation becomes explicit state passing, `usize` becomes `Nat`, and the
fallible `insert` returns its `Result` alongside the mutated state.
Rust's `Vec::push` appends at the end of the list and `Vec::pop` removes
the last element, so the free list is embedded with `++ [i]` for push
and `getLast?` / `dropLast` for pop.
-/

namespace GenVec

/-- `Handle { index: usize, generation: usize }`. -/
structure Handle where
  index : Nat
  generation : Nat
  deriving DecidableEq, Repr

/-- `GenerationError { handle: Handle }`, the error payload of a failed
`insert`. -/
structure GenerationError where
  handle : Handle
  deriving DecidableEq, Repr

/-- `Slot<T> { value: T, generation: usize }`. -/
structure Slot (T : Type) where
  value : T
  generation : Nat
  deriving DecidableEq, Repr

/-- `SlotVec<T> = Vec<Option<Slot<T>>>`. -/
abbrev SlotVec (T : Type) := List (Option (Slot T))

/-- `GenerationalVec<T> { elements: SlotVec<T> }`. -/
structure GenerationalVec (T : Type) where
  elements : SlotVec T
  deriving DecidableEq, Repr

namespace GenerationalVec

variable {T : Type}

/-- The `while self.elements.len() <= handle.index { self.elements.push(None) }`
loop at the start of `insert`, as a recursive function on the list. -/
def growLoop (elements : SlotVec T) (index : Nat) : SlotVec T :=
  if elements.length ≤ index then growLoop (elements ++ [none]) index else elements
termination_by index + 1 - elements.length
decreasing_by
  simp only [List.length_append, List.length_cons, List.length_nil]
  omega

/-- `GenerationalVec::insert`.  Mutation of `&mut self` is embedded by
returning the `Result` together with the state after the call. -/
def insert (v : GenerationalVec T) (handle : Handle) (value : T) :
    Except GenerationError Unit × GenerationalVec T :=
  let elements := growLoop v.elements handle.index
  let previous_generation :=
    match elements[handle.index]? with
    | some (some entry) => entry.generation
    | _ => 0
  if previous_generation > handle.generation then
    (.error ⟨handle⟩, ⟨elements⟩)
  else
    (.ok (), ⟨elements.set handle.index (some ⟨value, handle.generation⟩)⟩)

/-- `GenerationalVec::remove`: `self.elements.get_mut(handle.index)` is
`some` exactly when the index is in bounds, and in that case the slot is
overwritten with `None`. -/
def remove (v : GenerationalVec T) (handle : Handle) : GenerationalVec T :=
  match v.elements[handle.index]? with
  | some _ => ⟨v.elements.set handle.index none⟩
  | none => v

/-- `GenerationalVec::get`.  A returned `&T` is embedded as the value it
points at. -/
def get (v : GenerationalVec T) (handle : Handle) : Option T :=
  if handle.index ≥ v.elements.length then
    none
  else
    match v.elements[handle.index]? with
    | some (some entry) =>
        if entry.generation = handle.generation then some entry.value else none
    | _ => none

/-- `GenerationalVec::get_mut`.  The `&mut T` it yields is embedded as the
value it points at; the code is identical to `get` except for mutability. -/
def get_mut (v : GenerationalVec T) (handle : Handle) : Option T :=
  if handle.index ≥ v.elements.length then
    none
  else
    match v.elements[handle.index]? with
    | some (some entry) =>
        if entry.generation = handle.generation then some entry.value else none
    | _ => none

end GenerationalVec

/-- `Allocation { allocated: bool, generation: usize }`. -/
structure Allocation where
  allocated : Bool
  generation : Nat
  deriving DecidableEq, Repr

/-- `HandleAllocator { allocations: Vec<Allocation>, available_handles: Vec<usize> }`. -/
structure HandleAllocator where
  allocations : List Allocation
  available_handles : List Nat
  deriving DecidableEq, Repr

namespace HandleAllocator

/-- `HandleAllocator::new`, i.e. `Self::default()`. -/
def new : HandleAllocator := ⟨[], []⟩

/-- `HandleAllocator::handle_exists`. -/
def handle_exists (s : HandleAllocator) (handle : Handle) : Bool :=
  handle.index < s.allocations.length

/-- The allocation record at an index; reading `self.allocations[i]` in the
Rust code always happens under an in-bounds guard, and the default record
is never observed there. -/
def recordAt (s : HandleAllocator) (i : Nat) : Allocation :=
  s.allocations.getD i ⟨false, 0⟩

/-- `HandleAllocator::is_allocated`. -/
def is_allocated (s : HandleAllocator) (handle : Handle) : Bool :=
  s.handle_exists handle
    && (s.recordAt handle.index).generation = handle.generation
    && (s.recordAt handle.index).allocated

/-- `HandleAllocator::allocate`.  `Vec::pop` takes the last element of
`available_handles`.  Rust indexes `self.allocations[index]` directly; on
every state this verification quantifies over, the popped index is in
bounds (see `WF`), where `List.set` and `getD` agree with the Rust
indexing. -/
def allocate (s : HandleAllocator) : Handle × HandleAllocator :=
  match s.available_handles.getLast? with
  | some index =>
      let g := (s.recordAt index).generation + 1
      (⟨index, g⟩,
        { allocations := s.allocations.set index ⟨true, g⟩,
          available_handles := s.available_handles.dropLast })
  | none =>
      (⟨s.allocations.length, 0⟩,
        { allocations := s.allocations ++ [⟨true, 0⟩],
          available_handles := s.available_handles })

/-- `HandleAllocator::deallocate`. -/
def deallocate (s : HandleAllocator) (handle : Handle) : HandleAllocator :=
  if !s.is_allocated handle then s
  else
    { allocations :=
        s.allocations.set handle.index ⟨false, (s.recordAt handle.index).generation⟩,
      available_handles := s.available_handles ++ [handle.index] }

/-- `HandleAllocator::allocated_handles`. -/
def allocated_handles (s : HandleAllocator) : List Handle :=
  (s.allocations.enum.filter (fun p => p.2.allocated)).map
    (fun p => ⟨p.1, p.2.generation⟩)

/-- Every index on the free list refers to an existing allocation record.
This is the well-formedness the Rust code relies on when it writes
`self.allocations[index]` after popping `index`. -/
def WF (s : HandleAllocator) : Prop :=
  ∀ i ∈ s.available_handles, i < s.allocations.length

/-- States reachable from `HandleAllocator::new` by any sequence of
`allocate` and `deallocate` calls. -/
inductive Reachable : HandleAllocator → Prop
  | init : Reachable new
  | alloc {s : HandleAllocator} : Reachable s → Reachable (allocate s).2
  | dealloc {s : HandleAllocator} (h : Handle) :
      Reachable s → Reachable (deallocate s h)

/-- Zero or more `allocate`/`deallocate` calls starting from `s`. -/
inductive Steps : HandleAllocator → HandleAllocator → Prop
  | refl (s : HandleAllocator) : Steps s s
  | alloc {s s' : HandleAllocator} : Steps s s' → Steps s (allocate s').2
  | dealloc {s s' : HandleAllocator} (h : Handle) :
      Steps s s' → Steps s (deallocate s' h)

end HandleAllocator

/-! ### List helper lemmas -/

theorem getElem?_set_self_of_lt {α : Type _} (l : List α) (i : Nat) (a : α)
    (h : i < l.length) : (l.set i a)[i]? = some a := by
  rw [List.getElem?_set_self', List.getElem?_eq_getElem h]
  rfl

theorem getD_set_self_of_lt {α : Type _} (l : List α) (i : Nat) (a d : α)
    (h : i < l.length) : (l.set i a).getD i d = a := by
  rw [List.getD_eq_getElem?_getD, getElem?_set_self_of_lt l i a h]
  rfl

theorem getD_set_ne {α : Type _} (l : List α) (i j : Nat) (a d : α)
    (h : i ≠ j) : (l.set i a).getD j d = l.getD j d := by
  rw [List.getD_eq_getElem?_getD, List.getElem?_set_ne h, ← List.getD_eq_getElem?_getD]

theorem getD_append_lt {α : Type _} (l l₂ : List α) (i : Nat) (d : α)
    (h : i < l.length) : (l ++ l₂).getD i d = l.getD i d := by
  rw [List.getD_eq_getElem?_getD, List.getElem?_append_left h, ← List.getD_eq_getElem?_getD]

theorem getD_concat_length {α : Type _} (l : List α) (a d : α) :
    (l ++ [a]).getD l.length d = a := by
  rw [List.getD_eq_getElem?_getD, List.getElem?_concat_length]
  rfl

theorem getD_of_length_le {α : Type _} (l : List α) (i : Nat) (d : α)
    (h : l.length ≤ i) : l.getD i d = d := by
  rw [List.getD_eq_getElem?_getD, List.getElem?_eq_none h]
  rfl

namespace GenerationalVec

variable {T : Type}

/-! ### Properties of the grow loop -/

theorem growLoop_eq_aux (k : Nat) :
    ∀ (l : SlotVec T) (n : Nat), n + 1 - l.length = k →
      growLoop l n = l ++ List.replicate (n + 1 - l.length) none := by
  induction k with
  | zero =>
      intro l n hk
      rw [growLoop, if_neg (by omega)]
      simp [hk]
  | succ k ih =>
      intro l n hk
      rw [growLoop, if_pos (by omega)]
      rw [ih (l ++ [none]) n (by simp; omega)]
      simp only [List.append_assoc, List.length_append, List.length_cons,
        List.length_nil, List.singleton_append]
      rw [show n + 1 - l.length = (n + 1 - (l.length + 1)) + 1 by omega,
        List.replicate_succ]

theorem growLoop_eq (l : SlotVec T) (n : Nat) :
    growLoop l n = l ++ List.replicate (n + 1 - l.length) none :=
  growLoop_eq_aux _ l n rfl

theorem growLoop_length (l : SlotVec T) (n : Nat) :
    (growLoop l n).length = max l.length (n + 1) := by
  rw [growLoop_eq]
  simp
  omega

theorem growLoop_getElem?_lt (l : SlotVec T) (n i : Nat) (h : i < l.length) :
    (growLoop l n)[i]? = l[i]? := by
  rw [growLoop_eq, List.getElem?_append_left h]

theorem growLoop_getElem?_ge (l : SlotVec T) (n i : Nat)
    (h₁ : l.length ≤ i) (h₂ : i ≤ n) : (growLoop l n)[i]? = some none := by
  rw [growLoop_eq, List.getElem?_append_right h₁, List.getElem?_replicate,
    if_pos (by omega)]

/-! ### Unfolding equations for the storage operations -/

/-- The `previous_generation` computed inside `insert`: the generation stored
at an index, taken as 0 when the slot is empty or the index is beyond the
current length.  This is the `match self.elements.get(handle.index)` block of
the source. -/
def stored_generation (v : GenerationalVec T) (i : Nat) : Nat :=
  match v.elements[i]? with
  | some (some entry) => entry.generation
  | _ => 0

theorem insert_prev_gen (v : GenerationalVec T) (h : Handle) :
    (match (growLoop v.elements h.index)[h.index]? with
     | some (some entry) => entry.generation
     | _ => 0) = stored_generation v h.index := by
  by_cases hlt : h.index < v.elements.length
  · rw [growLoop_getElem?_lt _ _ _ hlt]
    rfl
  · rw [growLoop_getElem?_ge _ _ _ (by omega) (le_refl _)]
    unfold stored_generation
    rw [List.getElem?_eq_none (by omega)]

theorem insert_eq (v : GenerationalVec T) (h : Handle) (x : T) :
    insert v h x =
      if h.generation < stored_generation v h.index then
        (.error ⟨h⟩, ⟨growLoop v.elements h.index⟩)
      else
        (.ok (), ⟨(growLoop v.elements h.index).set h.index
          (some ⟨x, h.generation⟩)⟩) := by
  unfold insert
  dsimp only
  rw [insert_prev_gen]

theorem get_eq (v : GenerationalVec T) (h : Handle) :
    get v h =
      match v.elements[h.index]? with
      | some (some entry) =>
          if entry.generation = h.generation then some entry.value else none
      | _ => none := by
  unfold get
  by_cases hi : h.index < v.elements.length
  · rw [if_neg (by omega)]
  · rw [if_pos (by omega), List.getElem?_eq_none (by omega)]

/-! ### Claims about the storage -/

/-- C1: `insert(h, v)` fails with a `GenerationError` carrying `h` if and only
if the generation already stored at index `h.index` (taken as 0 when the slot
is empty or the index is beyond the current length) is strictly greater than
`h.generation`; otherwise it succeeds and the slot at `h.index` afterwards
holds `{value: v, generation: h.generation}`, regardless of whether a previous
value existed. -/
theorem insert_generation_guard (v : GenerationalVec T) (h : Handle) (x : T) :
    ((insert v h x).1 = .error ⟨h⟩ ↔ h.generation < stored_generation v h.index) ∧
    (stored_generation v h.index ≤ h.generation →
      (insert v h x).1 = .ok () ∧
      (insert v h x).2.elements[h.index]? = some (some ⟨x, h.generation⟩)) := by
  rw [insert_eq]
  by_cases hg : h.generation < stored_generation v h.index
  · rw [if_pos hg]
    exact ⟨iff_of_true rfl hg, fun hle => absurd hg (by omega)⟩
  · rw [if_neg hg]
    refine ⟨iff_of_false (by simp) hg, fun _ => ⟨rfl, ?_⟩⟩
    exact getElem?_set_self_of_lt _ _ _ (by rw [growLoop_length]; omega)

theorem insert_generation_guard_witness :
    (insert (⟨[some ⟨10, 3⟩]⟩ : GenerationalVec Nat) ⟨0, 3⟩ 7).1 = .ok () ∧
    (insert (⟨[some ⟨10, 3⟩]⟩ : GenerationalVec Nat) ⟨0, 3⟩ 7).2.elements[(0 : Nat)]? =
      some (some ⟨7, 3⟩) :=
  (insert_generation_guard ⟨[some ⟨10, 3⟩]⟩ ⟨0, 3⟩ 7).2 (by decide)

/-- C9: if `insert(h, v)` returns success then an immediately following
`get(h)` returns `Some(v)`. -/
theorem insert_get_round_trip (v : GenerationalVec T) (h : Handle) (x : T)
    (hok : (insert v h x).1 = .ok ()) :
    get (insert v h x).2 h = some x := by
  rw [insert_eq] at hok ⊢
  by_cases hg : h.generation < stored_generation v h.index
  · rw [if_pos hg] at hok
    exact absurd hok (by simp)
  · rw [if_neg hg]
    rw [get_eq]
    have hset : ((growLoop v.elements h.index).set h.index
        (some ⟨x, h.generation⟩))[h.index]? = some (some ⟨x, h.generation⟩) :=
      getElem?_set_self_of_lt _ _ _ (by rw [growLoop_length]; omega)
    simp only [hset]
    simp

theorem insert_get_round_trip_witness :
    get (insert (⟨[]⟩ : GenerationalVec Nat) ⟨2, 5⟩ 42).2 ⟨2, 5⟩ = some 42 :=
  insert_get_round_trip ⟨[]⟩ ⟨2, 5⟩ 42 (by rw [insert_eq]; rfl)

/-- C10: when `insert(h, v)` fails with a `GenerationError`, no occupied slot
is modified — every slot within the old bounds, and the result of `get(h')`
for every handle `h'`, are unchanged — but the backing array has been grown
with empty placeholder slots to length `max (old length) (h.index + 1)`, so
the length can increase even on error. -/
theorem insert_error_frame (v : GenerationalVec T) (h : Handle) (x : T)
    (e : GenerationError) (herr : (insert v h x).1 = .error e) :
    (insert v h x).2.elements.length = max v.elements.length (h.index + 1) ∧
    (∀ i, i < v.elements.length → (insert v h x).2.elements[i]? = v.elements[i]?) ∧
    (∀ h' : Handle, get (insert v h x).2 h' = get v h') := by
  rw [insert_eq] at herr ⊢
  by_cases hg : h.generation < stored_generation v h.index
  case neg =>
    rw [if_neg hg] at herr
    exact absurd herr (by simp)
  rw [if_pos hg] at herr ⊢
  refine ⟨growLoop_length _ _, fun i hi => growLoop_getElem?_lt _ _ _ hi,
    fun h' => ?_⟩
  rw [get_eq, get_eq]
  show (match (growLoop v.elements h.index)[h'.index]? with
        | some (some entry) =>
            if entry.generation = h'.generation then some entry.value else none
        | _ => none) = _
  by_cases hi : h'.index < v.elements.length
  · rw [growLoop_getElem?_lt _ _ _ hi]
  · by_cases hle : h'.index ≤ h.index
    · rw [growLoop_getElem?_ge _ _ _ (by omega) hle,
        List.getElem?_eq_none (show v.elements.length ≤ h'.index by omega)]
    · rw [List.getElem?_eq_none (show (growLoop v.elements h.index).length ≤ h'.index by
          rw [growLoop_length]; omega),
        List.getElem?_eq_none (show v.elements.length ≤ h'.index by omega)]

theorem insert_error_frame_witness :
    get (insert (⟨[some ⟨10, 5⟩]⟩ : GenerationalVec Nat) ⟨0, 2⟩ 7).2 ⟨0, 5⟩ =
      get (⟨[some ⟨10, 5⟩]⟩ : GenerationalVec Nat) ⟨0, 5⟩ :=
  (insert_error_frame ⟨[some ⟨10, 5⟩]⟩ ⟨0, 2⟩ 7 ⟨⟨0, 2⟩⟩
    (by rw [insert_eq]; rfl)).2.2 ⟨0, 5⟩

/-- C4: `remove(h)` clears the slot at `h.index` whenever `h.index` is within
bounds, comparing only the index and never the generation, and is a no-op when
`h.index` is out of bounds; in every case `get(h)` returns `None` immediately
afterwards. -/
theorem remove_characterization (v : GenerationalVec T) (h : Handle) :
    (h.index < v.elements.length →
      (remove v h).elements = v.elements.set h.index none) ∧
    (v.elements.length ≤ h.index → remove v h = v) ∧
    (∀ g, remove v ⟨h.index, g⟩ = remove v h) ∧
    get (remove v h) h = none := by
  have hin : ∀ (hlt : h.index < v.elements.length),
      (remove v h).elements = v.elements.set h.index none := by
    intro hlt
    unfold remove
    rw [List.getElem?_eq_getElem hlt]
  have hout : ∀ (hge : v.elements.length ≤ h.index), remove v h = v := by
    intro hge
    unfold remove
    rw [List.getElem?_eq_none hge]
  refine ⟨hin, hout, fun g => rfl, ?_⟩
  by_cases hlt : h.index < v.elements.length
  · rw [get_eq]
    show (match (remove v h).elements[h.index]? with
          | some (some entry) =>
              if entry.generation = h.generation then some entry.value else none
          | _ => none) = none
    rw [hin hlt, getElem?_set_self_of_lt _ _ _ hlt]
  · rw [hout (by omega), get_eq, List.getElem?_eq_none (by omega)]

theorem remove_characterization_witness :
    (remove (⟨[some ⟨5, 0⟩]⟩ : GenerationalVec Nat) ⟨0, 9⟩).elements =
      ([some ⟨5, 0⟩] : SlotVec Nat).set 0 none :=
  (remove_characterization ⟨[some ⟨5, 0⟩]⟩ ⟨0, 9⟩).1 (by decide)

/-- C5: `get(h)` and `get_mut(h)` return `None` if `h.index` is out of bounds,
the slot is empty, or the stored generation differs from `h.generation`;
otherwise they return the value stored in that slot. -/
theorem get_characterization (v : GenerationalVec T) (h : Handle) :
    get_mut v h = get v h ∧
    (v.elements.length ≤ h.index → get v h = none) ∧
    (v.elements[h.index]? = some none → get v h = none) ∧
    (∀ e, v.elements[h.index]? = some (some e) →
      e.generation ≠ h.generation → get v h = none) ∧
    (∀ e, v.elements[h.index]? = some (some e) →
      e.generation = h.generation → get v h = some e.value) := by
  refine ⟨rfl, ?_, ?_, ?_, ?_⟩
  · intro hle
    rw [get_eq, List.getElem?_eq_none hle]
  · intro hsl
    rw [get_eq, hsl]
  · intro e hsl hne
    rw [get_eq, hsl]
    simp [hne]
  · intro e hsl heq
    rw [get_eq, hsl]
    simp [heq]

theorem get_characterization_witness :
    get (⟨[some ⟨7, 4⟩]⟩ : GenerationalVec Nat) ⟨0, 4⟩ = some 7 :=
  (get_characterization ⟨[some ⟨7, 4⟩]⟩ ⟨0, 4⟩).2.2.2.2 ⟨7, 4⟩ rfl rfl

end GenerationalVec

namespace HandleAllocator

/-! ### Unfolding equations for the allocator operations -/

/-- The generation currently recorded for an index (0 for indices with no
record yet). -/
def genAt (s : HandleAllocator) (i : Nat) : Nat :=
  (s.recordAt i).generation

theorem allocate_pop (s : HandleAllocator) (i : Nat)
    (hpop : s.available_handles.getLast? = some i) :
    allocate s = (⟨i, s.genAt i + 1⟩,
      ⟨s.allocations.set i ⟨true, s.genAt i + 1⟩, s.available_handles.dropLast⟩) := by
  unfold allocate
  rw [hpop]
  rfl

theorem allocate_fresh (s : HandleAllocator)
    (hpop : s.available_handles.getLast? = none) :
    allocate s = (⟨s.allocations.length, 0⟩,
      ⟨s.allocations ++ [⟨true, 0⟩], s.available_handles⟩) := by
  unfold allocate
  rw [hpop]

theorem deallocate_no_op (s : HandleAllocator) (h : Handle)
    (hna : s.is_allocated h = false) : deallocate s h = s := by
  unfold deallocate
  rw [hna]
  rfl

theorem deallocate_eq (s : HandleAllocator) (h : Handle)
    (ha : s.is_allocated h = true) :
    deallocate s h = ⟨s.allocations.set h.index ⟨false, s.genAt h.index⟩,
      s.available_handles ++ [h.index]⟩ := by
  unfold deallocate
  rw [ha]
  rfl

theorem is_allocated_iff (s : HandleAllocator) (h : Handle) :
    s.is_allocated h = true ↔
      h.index < s.allocations.length ∧ s.genAt h.index = h.generation ∧
        (s.recordAt h.index).allocated = true := by
  simp [is_allocated, handle_exists, genAt, Bool.and_eq_true, decide_eq_true_eq,
    and_assoc]

/-! ### Well-formedness of reachable states -/

theorem wf_new : WF new := by
  intro i hi
  simp [new] at hi

theorem wf_allocate (s : HandleAllocator) (hwf : WF s) : WF (allocate s).2 := by
  cases hpop : s.available_handles.getLast? with
  | some j =>
      rw [allocate_pop s j hpop]
      intro i hi
      simp only [List.length_set]
      exact hwf i ((List.dropLast_sublist _).subset hi)
  | none =>
      rw [allocate_fresh s hpop]
      intro i hi
      simp only [List.length_append, List.length_cons, List.length_nil]
      have := hwf i hi
      omega

theorem wf_deallocate (s : HandleAllocator) (h : Handle) (hwf : WF s) :
    WF (deallocate s h) := by
  cases ha : s.is_allocated h with
  | false =>
      rw [deallocate_no_op s h ha]
      exact hwf
  | true =>
      rw [deallocate_eq s h ha]
      intro i hi
      simp only [List.length_set]
      rcases List.mem_append.1 hi with hi | hi
      · exact hwf i hi
      · simp only [List.mem_singleton] at hi
        subst hi
        exact ((is_allocated_iff s h).1 ha).1

theorem Reachable.wf {s : HandleAllocator} (hr : Reachable s) : WF s := by
  induction hr with
  | init => exact wf_new
  | alloc _ ih => exact wf_allocate _ ih
  | dealloc h _ ih => exact wf_deallocate _ h ih

/-! ### Evolution of generations across operations -/

theorem genAt_allocate_fresh_eq (s : HandleAllocator)
    (hpop : s.available_handles.getLast? = none) (i : Nat) :
    genAt (allocate s).2 i = genAt s i := by
  rw [allocate_fresh s hpop]
  simp only [genAt, recordAt]
  by_cases hi : i < s.allocations.length
  · rw [getD_append_lt _ _ _ _ hi]
  · by_cases hieq : i = s.allocations.length
    · subst hieq
      rw [getD_concat_length, getD_of_length_le _ _ _ (le_refl _)]
    · rw [getD_of_length_le _ _ _ (by simp; omega),
        getD_of_length_le _ _ _ (by omega)]

theorem genAt_allocate_pop_eq (s : HandleAllocator) (j : Nat)
    (hpop : s.available_handles.getLast? = some j)
    (hj : j < s.allocations.length) :
    genAt (allocate s).2 j = genAt s j + 1 := by
  rw [allocate_pop s j hpop]
  simp only [genAt, recordAt]
  rw [getD_set_self_of_lt _ _ _ _ hj]

theorem genAt_allocate_pop_ne (s : HandleAllocator) (j i : Nat)
    (hpop : s.available_handles.getLast? = some j) (hne : i ≠ j) :
    genAt (allocate s).2 i = genAt s i := by
  rw [allocate_pop s j hpop]
  simp only [genAt, recordAt]
  rw [getD_set_ne _ _ _ _ _ (Ne.symm hne)]

theorem genAt_deallocate (s : HandleAllocator) (h : Handle) (i : Nat) :
    genAt (deallocate s h) i = genAt s i := by
  cases ha : s.is_allocated h with
  | false => rw [deallocate_no_op s h ha]
  | true =>
      rw [deallocate_eq s h ha]
      simp only [genAt, recordAt]
      by_cases hi : i = h.index
      · subst hi
        rw [getD_set_self_of_lt _ _ _ _ ((is_allocated_iff s h).1 ha).1]
      · rw [getD_set_ne _ _ _ _ _ (fun he => hi he.symm)]

theorem genAt_allocate_le (s : HandleAllocator) (i : Nat) :
    genAt s i ≤ genAt (allocate s).2 i := by
  cases hpop : s.available_handles.getLast? with
  | none => rw [genAt_allocate_fresh_eq s hpop i]
  | some j =>
      by_cases hij : i = j
      · subst hij
        by_cases hj : i < s.allocations.length
        · rw [genAt_allocate_pop_eq s i hpop hj]
          omega
        · rw [allocate_pop s i hpop]
          simp only [genAt, recordAt]
          rw [List.set_eq_of_length_le (by omega)]
      · rw [genAt_allocate_pop_ne s j i hpop hij]

theorem genAt_le_steps {s s' : HandleAllocator} (hst : Steps s s') (i : Nat) :
    genAt s i ≤ genAt s' i := by
  induction hst with
  | refl => exact le_refl _
  | alloc _ ih => exact le_trans ih (genAt_allocate_le _ i)
  | dealloc h _ ih => exact le_trans ih (le_of_eq (genAt_deallocate _ h i).symm)

theorem stale_handle_dead {s s' : HandleAllocator} (h : Handle)
    (hst : Steps s s') (hgt : h.generation < genAt s h.index) :
    is_allocated s' h = false := by
  cases hb : is_allocated s' h with
  | false => rfl
  | true =>
      exfalso
      have hgen := ((is_allocated_iff s' h).1 hb).2.1
      have hle := genAt_le_steps hst h.index
      omega

/-! ### Claims about the allocator -/

/-- C6: if the free list is non-empty, `allocate()` pops an index from it,
increments that record's generation by 1, marks it allocated, and returns
`Handle{index, generation}` with the new generation; if the free list is
empty, it appends a record `{allocated: true, generation: 0}` and returns
`Handle{index = new length - 1, generation: 0}`.  In both cases
`is_allocated` holds of the returned handle immediately afterwards. -/
theorem allocate_characterization (s : HandleAllocator) (hwf : WF s) :
    (∀ i, s.available_handles.getLast? = some i →
      (allocate s).1 = ⟨i, s.genAt i + 1⟩ ∧
      (allocate s).2.allocations = s.allocations.set i ⟨true, s.genAt i + 1⟩ ∧
      (allocate s).2.available_handles = s.available_handles.dropLast) ∧
    (s.available_handles.getLast? = none →
      (allocate s).1 = ⟨s.allocations.length, 0⟩ ∧
      (allocate s).2.allocations = s.allocations ++ [⟨true, 0⟩] ∧
      (allocate s).2.available_handles = s.available_handles) ∧
    is_allocated (allocate s).2 (allocate s).1 = true := by
  refine ⟨fun i hpop => by rw [allocate_pop s i hpop]; exact ⟨rfl, rfl, rfl⟩,
    fun hpop => by rw [allocate_fresh s hpop]; exact ⟨rfl, rfl, rfl⟩, ?_⟩
  cases hpop : s.available_handles.getLast? with
  | some j =>
      have hj : j < s.allocations.length := hwf j (List.mem_of_mem_getLast? hpop)
      rw [allocate_pop s j hpop]
      refine (is_allocated_iff _ _).2 ⟨?_, ?_, ?_⟩
      · simpa [List.length_set] using hj
      · simp only [genAt, recordAt]
        rw [getD_set_self_of_lt _ _ _ _ hj]
      · simp only [recordAt]
        rw [getD_set_self_of_lt _ _ _ _ hj]
  | none =>
      rw [allocate_fresh s hpop]
      refine (is_allocated_iff _ _).2 ⟨by simp, ?_, ?_⟩
      · simp only [genAt, recordAt]
        rw [getD_concat_length]
      · simp only [recordAt]
        rw [getD_concat_length]

theorem allocate_characterization_witness :
    is_allocated (allocate new).2 (allocate new).1 = true :=
  (allocate_characterization new wf_new).2.2

/-- C7: `deallocate(h)` leaves the allocator unchanged when `is_allocated(h)`
is false; when `is_allocated(h)` is true it clears the allocated flag at
`h.index` and pushes `h.index` onto the free list, leaving the generation
unchanged, and afterwards `is_allocated(h)` is false. -/
theorem deallocate_characterization (s : HandleAllocator) (h : Handle) :
    (s.is_allocated h = false → deallocate s h = s) ∧
    (s.is_allocated h = true →
      (deallocate s h).allocations =
        s.allocations.set h.index ⟨false, s.genAt h.index⟩ ∧
      (deallocate s h).available_handles = s.available_handles ++ [h.index] ∧
      genAt (deallocate s h) h.index = genAt s h.index ∧
      is_allocated (deallocate s h) h = false) := by
  refine ⟨deallocate_no_op s h, fun ha => ?_⟩
  have hidx : h.index < s.allocations.length := ((is_allocated_iff s h).1 ha).1
  refine ⟨by rw [deallocate_eq s h ha], by rw [deallocate_eq s h ha],
    genAt_deallocate s h h.index, ?_⟩
  cases hb : is_allocated (deallocate s h) h with
  | false => rfl
  | true =>
      exfalso
      have hflag := ((is_allocated_iff _ h).1 hb).2.2
      rw [deallocate_eq s h ha] at hflag
      simp only [recordAt] at hflag
      rw [getD_set_self_of_lt _ _ _ _ hidx] at hflag
      exact Bool.false_ne_true hflag

theorem deallocate_characterization_witness :
    is_allocated (deallocate (allocate new).2 ⟨0, 0⟩) ⟨0, 0⟩ = false :=
  ((deallocate_characterization (allocate new).2 ⟨0, 0⟩).2 (by decide)).2.2.2

/-- C2: on a fresh allocator the script `h0 = allocate()`, `h1 = allocate()`,
`deallocate(h0)`, `h2 = allocate()` yields `h2.index = h0.index` and
`h2.generation = h0.generation + 1`, after which `is_allocated(h0)` is false
while `is_allocated(h1)` and `is_allocated(h2)` are true; more generally the
free list is served LIFO: the most recently freed index is the next one
returned by `allocate()`. -/
theorem reuse_sequencing :
    ((allocate (deallocate (allocate (allocate new).2).2 (allocate new).1)).1.index =
        (allocate new).1.index ∧
      (allocate (deallocate (allocate (allocate new).2).2 (allocate new).1)).1.generation =
        (allocate new).1.generation + 1 ∧
      is_allocated
        (allocate (deallocate (allocate (allocate new).2).2 (allocate new).1)).2
        (allocate new).1 = false ∧
      is_allocated
        (allocate (deallocate (allocate (allocate new).2).2 (allocate new).1)).2
        (allocate (allocate new).2).1 = true ∧
      is_allocated
        (allocate (deallocate (allocate (allocate new).2).2 (allocate new).1)).2
        (allocate (deallocate (allocate (allocate new).2).2 (allocate new).1)).1 =
          true) ∧
    (∀ (s : HandleAllocator) (h : Handle), s.is_allocated h = true →
      (allocate (deallocate s h)).1.index = h.index) := by
  refine ⟨by decide, fun s h ha => ?_⟩
  rw [deallocate_eq s h ha]
  rw [allocate_pop _ h.index (by rw [List.getLast?_concat])]

theorem reuse_sequencing_witness :
    (allocate (deallocate (allocate new).2 ⟨0, 0⟩)).1.index = 0 :=
  reuse_sequencing.2 (allocate new).2 ⟨0, 0⟩ (by decide)

/-- C3: in every reachable allocator state, the generation recorded for an
index never decreases across an operation and increases by exactly 1 exactly
when `allocate()` reuses that index (never on `deallocate`); consequently,
once the generation recorded at `h.index` exceeds `h.generation`, the handle
`h` never again satisfies `is_allocated` in any later state. -/
theorem generation_monotonicity (s : HandleAllocator) (hr : Reachable s) :
    (∀ i, genAt s i ≤ genAt (allocate s).2 i) ∧
    (∀ h i, genAt (deallocate s h) i = genAt s i) ∧
    (∀ i, s.available_handles.getLast? = some i →
      genAt (allocate s).2 i = genAt s i + 1 ∧
      ∀ j, j ≠ i → genAt (allocate s).2 j = genAt s j) ∧
    (s.available_handles.getLast? = none → ∀ i, genAt (allocate s).2 i = genAt s i) ∧
    (∀ (s' : HandleAllocator) (h : Handle), Steps s s' →
      h.generation < genAt s h.index → is_allocated s' h = false) := by
  refine ⟨genAt_allocate_le s, genAt_deallocate s, fun i hpop => ?_,
    fun hpop i => genAt_allocate_fresh_eq s hpop i,
    fun s' h hst hgt => stale_handle_dead h hst hgt⟩
  have hi : i < s.allocations.length := hr.wf i (List.mem_of_mem_getLast? hpop)
  exact ⟨genAt_allocate_pop_eq s i hpop hi,
    fun j hj => genAt_allocate_pop_ne s i j hpop hj⟩

theorem generation_monotonicity_witness :
    is_allocated (allocate (deallocate (allocate new).2 ⟨0, 0⟩)).2 ⟨0, 0⟩ = false :=
  (generation_monotonicity (allocate (deallocate (allocate new).2 ⟨0, 0⟩)).2
      (Reachable.alloc (Reachable.dealloc ⟨0, 0⟩ (Reachable.alloc Reachable.init)))).2.2.2.2
    _ ⟨0, 0⟩ (Steps.refl _) (by decide)

/-- C8: in every reachable allocator state, no two handles that both satisfy
`is_allocated` and share an index differ in generation: for each index at
most one generation value makes `is_allocated` true at any moment. -/
theorem no_shared_live_pair (s : HandleAllocator) (_hr : Reachable s)
    (h₁ h₂ : Handle) (e₁ : s.is_allocated h₁ = true) (e₂ : s.is_allocated h₂ = true)
    (hidx : h₁.index = h₂.index) : h₁.generation = h₂.generation := by
  have g₁ := ((is_allocated_iff s h₁).1 e₁).2.1
  have g₂ := ((is_allocated_iff s h₂).1 e₂).2.1
  rw [hidx] at g₁
  omega

theorem no_shared_live_pair_witness :
    (⟨0, 0⟩ : Handle).generation = (⟨0, 0⟩ : Handle).generation :=
  no_shared_live_pair (allocate new).2 (Reachable.alloc Reachable.init)
    ⟨0, 0⟩ ⟨0, 0⟩ (by decide) (by decide) rfl

end HandleAllocator

end GenVec
